import Mathlib

/-
Shallow embedding of the wave-field simulation core (westoncb/vibifly).

Sources embedded here:
  src/js/WaveField.js    - Cell / WaveField data model, getCell, gridToWorld,
                           worldToGrid, addEnergy, addWavePulse, update, clear
  src/js/Utils.js        - snapToScale
  src/js/WaveRenderer.js - traveling-wave collection, updateTravelingWaves
  src/unnamed/part_000   - Emitter.emitWave (Emitter.js)

JS numbers are modelled as exact reals; the traveling-wave manager, which
only uses field arithmetic and comparisons, is modelled over the rationals
so that its behaviour is decidable.  JS bitwise-free numeric primitives
used by the source are modelled explicitly: `%` on numbers is fmod
(truncated division), `Math.round` rounds half toward positive infinity,
`Math.floor` / `Math.ceil` are the usual floor and ceiling.
-/

namespace Vibifly

noncomputable section

/-- JS truncation toward zero, as used by the `%` operator on numbers. -/
def jsTrunc (x : ℝ) : ℤ := if 0 ≤ x then ⌊x⌋ else ⌈x⌉

/-- JS `a % b` (fmod): `a - b * trunc (a / b)` for finite positive `b`. -/
def jsFmod (a b : ℝ) : ℝ := a - b * (jsTrunc (a / b) : ℝ)

/-- JS `Math.round`: rounds half toward positive infinity. -/
def jsRound (x : ℝ) : ℝ := (⌊x + 1 / 2⌋ : ℝ)

/-! Utils.js: snapToScale -/

/-- The scale-name constants used by the spec and the tests. -/
def majorType : String := "major"

/-- The chromatic scale name (Emitter skips snapping for it). -/
def chromaticType : String := "chromatic"

/-- Utils.js 8-18: the table of scale patterns (semitones from root);
`scales[scaleType] || scales.major` falls back to major for unknown keys. -/
def scales (scaleType : String) : List ℤ :=
  match scaleType with
  | "major" => [0, 2, 4, 5, 7, 9, 11]
  | "minor" => [0, 2, 3, 5, 7, 8, 10]
  | "pentatonic" => [0, 2, 4, 7, 9]
  | "minorPentatonic" => [0, 3, 5, 7, 10]
  | "harmonicMinor" => [0, 2, 3, 5, 7, 8, 11]
  | "chromatic" => [0, 1, 2, 3, 4, 5, 6, 7, 8, 9, 10, 11]
  | _ => [0, 2, 4, 5, 7, 9, 11]

/-- One iteration of the closest-note scan in Utils.js 31-45.  The state is
`(minDistance, closestNote)`; `minDistance = none` models the initial
JS `Infinity` (every finite distance compares below it).  Each scale note is
tried at the current octave and one octave lower. -/
def snapStep (s : ℝ) (st : Option ℝ × ℤ) (p : ℤ) : Option ℝ × ℤ :=
  let d := |s - (p : ℝ)|
  let st1 : Option ℝ × ℤ :=
    match st.1 with
    | none => (some d, p)
    | some m => if d < m then (some d, p) else st
  let dl := |s - ((p : ℝ) - 12)|
  match st1.1 with
  | none => (some dl, p - 12)
  | some m => if dl < m then (some dl, p - 12) else st1

/-- The closest scale note selected by the loop in Utils.js 28-45
(initial state: `minDistance = Infinity`, `closestNote = 0`). -/
def closestNote (s : ℝ) (pattern : List ℤ) : ℤ :=
  (pattern.foldl (snapStep s) (none, 0)).2

/-- Utils.js 4-49: map a frequency to the nearest note of a scale. -/
def snapToScale (frequency : ℝ) (scaleType : String) : ℝ :=
  let baseFreq : ℝ := 440
  let scalePat := scales scaleType
  let semitones : ℝ := 12 * Real.logb 2 (frequency / baseFreq)
  let octave : ℤ := ⌊semitones / 12⌋
  let semitonesInOctave : ℝ := jsFmod (jsFmod semitones 12 + 12) 12
  let note : ℤ := closestNote semitonesInOctave scalePat
  baseFreq * (2 : ℝ) ^ (((octave * 12 + note : ℤ) : ℝ) / 12)

/-! WaveField.js: data model -/

/-- WaveField.js 14-21: one grid cell. -/
structure Cell where
  energy : ℝ
  frequency : ℝ
  color : ℝ × ℝ × ℝ
  lastActive : ℕ
  phase : ℝ
  velocity : ℝ × ℝ

/-- WaveField.js 3-27: the field object. -/
structure WaveField where
  width : ℝ
  height : ℝ
  resolution : ℕ
  cellWidth : ℝ
  cellHeight : ℝ
  grid : List Cell
  decayRate : ℝ
  propagationSpeed : ℝ
  timeStep : ℕ
  maxVelocity : ℝ

/-- WaveField.js 4-27: the constructor.  No validation is performed.  With
`resolution = 0` the JS division `width / 0` yields `Infinity` while real
division by zero yields `0`; no claim below depends on `cellWidth` in that
degenerate case (the grid is empty either way). -/
def mkWaveField (width height : ℝ) (resolution : ℕ) : WaveField :=
  { width := width
    height := height
    resolution := resolution
    cellWidth := width / (resolution : ℝ)
    cellHeight := height / (resolution : ℝ)
    grid := List.replicate (resolution * resolution)
      { energy := 0
        frequency := 440
        color := (0, 0, 0)
        lastActive := 0
        phase := 0
        velocity := (0, 0) }
    decayRate := 0.98
    propagationSpeed := 0.3
    timeStep := 0
    maxVelocity := 5 }

/-- WaveField.js 30-35: bounds-checked grid lookup (null for out of range). -/
def getCell (f : WaveField) (x y : ℤ) : Option Cell :=
  if x < 0 ∨ (f.resolution : ℤ) ≤ x ∨ y < 0 ∨ (f.resolution : ℤ) ≤ y then none
  else f.grid[y.toNat * f.resolution + x.toNat]?

/-- WaveField.js 45-50: grid coordinates to the world position of the cell
center. -/
def gridToWorld (f : WaveField) (gridX gridY : ℤ) : ℝ × ℝ :=
  ((gridX : ℝ) * f.cellWidth + f.cellWidth / 2,
   (gridY : ℝ) * f.cellHeight + f.cellHeight / 2)

/-- WaveField.js 53-58: world coordinates to grid coordinates (floor
division, no bounds clamp). -/
def worldToGrid (f : WaveField) (worldX worldY : ℝ) : ℤ × ℤ :=
  (⌊worldX / f.cellWidth⌋, ⌊worldY / f.cellHeight⌋)

/-- WaveField.js 61-87: direct point energy injection with frequency/color
blending for significant amounts. -/
def addEnergy (f : WaveField) (gridX gridY : ℤ) (amount frequency : ℝ)
    (color : ℝ × ℝ × ℝ) : WaveField :=
  match getCell f gridX gridY with
  | none => f
  | some cell =>
    let currentEnergy := cell.energy
    let newEnergy := min 1 (currentEnergy + amount)
    let cell1 : Cell :=
      if 0.05 < amount then
        let blendFactor := amount / (currentEnergy + amount)
        { cell with
          frequency := cell.frequency * (1 - blendFactor) + frequency * blendFactor
          color := (jsRound (cell.color.1 * (1 - blendFactor) + color.1 * blendFactor),
                    jsRound (cell.color.2.1 * (1 - blendFactor) + color.2.1 * blendFactor),
                    jsRound (cell.color.2.2 * (1 - blendFactor) + color.2.2 * blendFactor)) }
      else cell
    let cell2 : Cell := { cell1 with energy := newEnergy, lastActive := f.timeStep }
    { f with grid := f.grid.set (gridY.toNat * f.resolution + gridX.toNat) cell2 }

/-- The integer loop range `a, a+1, ..., b` (empty when `b < a`). -/
def intRange (a b : ℤ) : List ℤ :=
  (List.range (b + 1 - a).toNat).map (fun i => a + (i : ℤ))

/-- WaveField.js 160-210: the innermost body of addWavePulse, reached once a
candidate cell is within the pulse radius and inside the directional cone.
Only cells within the expanding ring (`|distance - radius| < waveThickness`)
are touched; the accumulator `g` is the grid being mutated in place. -/
def ringUpdate (f : WaveField) (intensity frequency : ℝ) (color : ℝ × ℝ × ℝ)
    (velocityX velocityY : ℝ) (radius distance directionFactor : ℝ)
    (g : List Cell) (x y : ℤ) : List Cell :=
  let waveThickness := radius * 0.2
  let distFromWaveFront := |distance - radius|
  if distFromWaveFront < waveThickness then
    let intensityFactor := 1 - distFromWaveFront / waveThickness
    let cellIntensity := intensity * intensityFactor
    let idx := y.toNat * f.resolution + x.toNat
    match g[idx]? with
    | none => g
    | some cell =>
      let currentEnergy := cell.energy
      let newEnergy := min 1 (currentEnergy + cellIntensity)
      let vx := velocityX * cellIntensity * directionFactor
      let vy := velocityY * cellIntensity * directionFactor
      let cell1 : Cell :=
        if 0.1 < cellIntensity then
          let blendFactor := cellIntensity / (if newEnergy = 0 then 1 else newEnergy)
          { cell with velocity :=
              (cell.velocity.1 * (1 - blendFactor) + vx * blendFactor,
               cell.velocity.2 * (1 - blendFactor) + vy * blendFactor) }
        else cell
      let cell2 : Cell :=
        if 0.05 < cellIntensity then
          let blendFactor := cellIntensity / newEnergy
          { cell1 with
            frequency := cell1.frequency * (1 - blendFactor) + frequency * blendFactor
            color := (jsRound (cell1.color.1 * (1 - blendFactor) + color.1 * blendFactor),
                      jsRound (cell1.color.2.1 * (1 - blendFactor) + color.2.1 * blendFactor),
                      jsRound (cell1.color.2.2 * (1 - blendFactor) + color.2.2 * blendFactor)) }
        else cell1
      g.set idx ({ cell2 with energy := newEnergy, lastActive := f.timeStep })
  else g

/-- WaveField.js 114-214: processing of one candidate cell `(x, y)` of the
bounding square: bounds check, distance check against the pulse radius,
directional-cone check (`Math.atan2 dy dx` is the argument of the complex
number `dx + dy i`), then the ring update. -/
def pulseStep (f : WaveField) (worldX worldY radius intensity frequency : ℝ)
    (color : ℝ × ℝ × ℝ) (velocityX velocityY angle spreadAngle : ℝ)
    (g : List Cell) (xy : ℤ × ℤ) : List Cell :=
  let x := xy.1
  let y := xy.2
  if x < 0 ∨ (f.resolution : ℤ) ≤ x ∨ y < 0 ∨ (f.resolution : ℤ) ≤ y then g
  else
    let cellWorld := gridToWorld f x y
    let dx := cellWorld.1 - worldX
    let dy := cellWorld.2 - worldY
    let distance := Real.sqrt (dx * dx + dy * dy)
    if distance ≤ radius then
      if spreadAngle < 360 then
        let cellAngle := Complex.arg ({ re := dx, im := dy })
        let angleDiff0 := |cellAngle - angle|
        let angleDiff := if Real.pi < angleDiff0 then 2 * Real.pi - angleDiff0 else angleDiff0
        let halfSpread := spreadAngle * Real.pi / 360
        if angleDiff ≤ halfSpread then
          ringUpdate f intensity frequency color velocityX velocityY radius distance
            (1 - angleDiff / halfSpread) g x y
        else g
      else
        ringUpdate f intensity frequency color velocityX velocityY radius distance 1 g x y
    else g

/-- WaveField.js 90-215: add a wave pulse to the field.  The candidate cells
are the bounding square of side `2 * gridRadius + 1` around the pulse center
(scanned row by row), and the grid is updated in place cell by cell. -/
def addWavePulse (f : WaveField) (worldX worldY radius intensity frequency : ℝ)
    (color : ℝ × ℝ × ℝ) (angle spreadAngle : ℝ) : WaveField :=
  let a := jsFmod (jsFmod angle (2 * Real.pi) + 2 * Real.pi) (2 * Real.pi)
  let centerGridPos := worldToGrid f worldX worldY
  let gridRadius : ℤ := ⌈radius / f.cellWidth⌉
  let velocityX := Real.cos a * 2
  let velocityY := Real.sin a * 2
  let candidates : List (ℤ × ℤ) :=
    (intRange (centerGridPos.2 - gridRadius) (centerGridPos.2 + gridRadius)).flatMap
      (fun y => (intRange (centerGridPos.1 - gridRadius) (centerGridPos.1 + gridRadius)).map
        (fun x => (x, y)))
  let newGrid := candidates.foldl
    (pulseStep f worldX worldY radius intensity frequency color velocityX velocityY a
      spreadAngle) f.grid
  { f with grid := newGrid }

/-- WaveField.js 226-275: the per-cell transition of `update(deltaTime)` as
published in the new grid.  The source also advances `phase` (lines 235-238),
but that assignment mutates the pre-copy grid, which is discarded when
`this.grid = newGrid` runs at line 279; the published cell therefore keeps
the phase copied at lines 221-224.  Energy decays by
`decayRate ** (deltaTime * 60)` and snaps to exactly 0 below 0.01; velocity
decays with energy (or by the fixed factor 0.8 once energy is dark) and
snaps to (0,0) below magnitude 0.01. -/
def transformCell (decayRate dt : ℝ) (c : Cell) : Cell :=
  let newEnergy := c.energy * decayRate ^ (dt * 60)
  let velocity1 : ℝ × ℝ :=
    if c.velocity.1 ≠ 0 ∨ c.velocity.2 ≠ 0 then
      let v : ℝ × ℝ :=
        if 0.01 < c.energy then
          (c.velocity.1 * (newEnergy / c.energy), c.velocity.2 * (newEnergy / c.energy))
        else
          (c.velocity.1 * 0.8, c.velocity.2 * 0.8)
      if Real.sqrt (v.1 * v.1 + v.2 * v.2) < 0.01 then (0, 0) else v
    else c.velocity
  { c with
    energy := if newEnergy < 0.01 then 0 else newEnergy
    velocity := velocity1 }

/-- WaveField.js 217-280: advance the simulation one tick.  A copy of the
grid is made first (deep-copied velocities), then every index of the
`resolution * resolution` scan is overwritten with the transformed old cell,
and the grid is swapped wholesale. -/
def update (f : WaveField) (dt : ℝ) : WaveField :=
  let newGrid0 := f.grid.map (fun c => { c with velocity := (c.velocity.1, c.velocity.2) })
  let newGrid := (List.range (f.resolution * f.resolution)).foldl
    (fun g i =>
      match f.grid[i]? with
      | some c => g.set i (transformCell f.decayRate dt c)
      | none => g) newGrid0
  { f with timeStep := f.timeStep + 1, grid := newGrid }

/-- WaveField.js 298-306: reset every cell's energy, frequency, color and
phase to their defaults (velocity and lastActive are left untouched). -/
def clear (f : WaveField) : WaveField :=
  { f with grid := f.grid.map (fun c =>
      { c with energy := 0, frequency := 440, color := (0, 0, 0), phase := 0 }) }

/-- The energy stored at grid index `i`, when it exists. -/
def energyAt (f : WaveField) (i : ℕ) : Option ℝ :=
  (f.grid[i]?).map Cell.energy

/-- The energy stored at grid index `i`, defaulting to 0 off the grid. -/
def enAt (f : WaveField) (i : ℕ) : ℝ :=
  ((f.grid[i]?).map Cell.energy).getD 0

/-- Every cell's energy lies in the unit interval. -/
def EnergyBounds (f : WaveField) : Prop :=
  ∀ c ∈ f.grid, 0 ≤ c.energy ∧ c.energy ≤ 1

/-- Euclidean distance from the world center of grid cell (x, y) to the
point (wx, wy), as addWavePulse computes it. -/
def cellDist (f : WaveField) (x y : ℕ) (wx wy : ℝ) : ℝ :=
  Real.sqrt (((gridToWorld f (x : ℤ) (y : ℤ)).1 - wx) * ((gridToWorld f (x : ℤ) (y : ℤ)).1 - wx) +
    ((gridToWorld f (x : ℤ) (y : ℤ)).2 - wy) * ((gridToWorld f (x : ℤ) (y : ℤ)).2 - wy))

/-- Ring-shape invariant for a pulse at (wx, wy) with the given radius: every
in-bounds cell either still has zero energy or its world center lies on the
pulse's ring (within the radius, strictly within one wave thickness of the
front). -/
def RingInv (f : WaveField) (wx wy radius : ℝ) (g : List Cell) : Prop :=
  ∀ (x y : ℕ), x < f.resolution → y < f.resolution → ∀ c,
    g[y * f.resolution + x]? = some c →
    c.energy = 0 ∨
      (cellDist f x y wx wy ≤ radius ∧ |cellDist f x y wx wy - radius| < radius * 0.2)

/-- The external mutation entry points of a WaveField, with their arguments. -/
inductive Op where
  | addEnergy (gridX gridY : ℤ) (amount frequency : ℝ) (color : ℝ × ℝ × ℝ)
  | addWavePulse (worldX worldY radius intensity frequency : ℝ)
      (color : ℝ × ℝ × ℝ) (angle spreadAngle : ℝ)
  | update (dt : ℝ)
  | clear

/-- Apply one operation to the field. -/
def applyOp (f : WaveField) : Op → WaveField
  | Op.addEnergy gx gy amount freq color => addEnergy f gx gy amount freq color
  | Op.addWavePulse wx wy radius intensity freq color angle spread =>
      addWavePulse f wx wy radius intensity freq color angle spread
  | Op.update dt => update f dt
  | Op.clear => clear f

/-- The argument restrictions of claim C2: nonnegative injected amounts and
intensities, nonnegative time steps. -/
def ValidOp : Op → Prop
  | Op.addEnergy _ _ amount _ _ => 0 ≤ amount
  | Op.addWavePulse _ _ _ intensity _ _ _ _ => 0 ≤ intensity
  | Op.update dt => 0 ≤ dt
  | Op.clear => True

/-- Iterated `update` with a fixed time step. -/
def iterUpdate (f : WaveField) (dt : ℝ) : ℕ → WaveField
  | 0 => f
  | n + 1 => update (iterUpdate f dt n) dt

end

/-! WaveRenderer.js: traveling-wave lifecycle (exact rational model) -/

/-- The fields of a traveling wave read or written by
`WaveRenderer.updateTravelingWaves` (WaveRenderer.js 25-37); the remaining
wave fields (position, angle, color, ...) are not touched by it. -/
structure TravelingWave where
  radius : ℚ
  maxRadius : ℚ
  speed : ℚ
  intensity : ℚ
  deriving Repr, DecidableEq

/-- WaveRenderer.js 27-32: one tick of growth and intensity decay applied to
a wave inside the filter callback. -/
def stepWave (dt : ℚ) (w : TravelingWave) : TravelingWave :=
  let radius' := w.radius + w.speed * dt
  let distanceFactor := 1 - radius' / w.maxRadius / 2
  { w with radius := radius', intensity := max 0 (w.intensity * distanceFactor) }

/-- WaveRenderer.js 35: keep the wave while it is below max radius and still
has intensity. -/
def keepWave (w : TravelingWave) : Bool :=
  decide (w.radius < w.maxRadius) && decide (0.01 < w.intensity)

/-- WaveRenderer.js 25-37: grow, decay and cull the collection. -/
def updateTravelingWaves (dt : ℚ) (waves : List TravelingWave) : List TravelingWave :=
  (waves.map (stepWave dt)).filter keepWave

noncomputable section

/-! Emitter.js (src/unnamed/part_000): emitWave -/

/-- Emitter.js 5-41: emitter state (the `onEmitWave` callback, a
side-effecting observer, is not part of the value model). -/
structure Emitter where
  id : String
  type : String
  playerId : ℕ
  position : ℝ × ℝ
  active : Bool
  angle : ℝ
  spreadAngle : ℝ
  waveSpeed : ℝ
  waveDensity : ℝ
  lastEmitTime : ℝ
  baseColor : ℝ × ℝ × ℝ
  pulseSize : ℝ
  maxRadius : ℝ
  baseFrequency : ℝ
  scaleType : String
  oscillatorType : String
  filterType : String
  filterFrequency : ℝ
  filterQ : ℝ
  reverbAmount : ℝ
  gain : ℝ

/-- Emitter.js 133-153: the wave value built by emitWave. -/
structure Wave where
  emitterId : String
  playerId : ℕ
  type : String
  position : ℝ × ℝ
  angle : ℝ
  spreadAngle : ℝ
  radius : ℝ
  maxRadius : ℝ
  speed : ℝ
  intensity : ℝ
  frequency : ℝ
  color : ℝ × ℝ × ℝ
  oscillatorType : String
  filterType : String
  filterFrequency : ℝ
  filterQ : ℝ
  reverbAmount : ℝ
  gain : ℝ
  createdAt : ℝ

/-- Emitter.js 121-163: emit a wave pulse.  `rand` stands for the
`Math.random()` draw and `now` for the `performance.now()` clock reading;
`timeStep` is the caller-supplied timestamp, `none` when omitted.  The
source computes `createdAt: timeStep || performance.now()`, so both an
omitted timestamp and the falsy timestamp 0 fall through to the clock.
Returns the wave together with the updated emitter (whose `lastEmitTime` is
set from `wave.createdAt`), or `none` when the emitter is inactive. -/
def emitWave (e : Emitter) (intensity : ℝ) (timeStep : Option ℝ) (rand now : ℝ) :
    Option (Wave × Emitter) :=
  if e.active = false then none
  else
    let frequency0 := e.baseFrequency * (0.98 + rand * 0.04)
    let frequency :=
      if e.scaleType ≠ chromaticType then snapToScale frequency0 e.scaleType else frequency0
    let createdAt : ℝ :=
      match timeStep with
      | none => now
      | some t => if t = 0 then now else t
    let wave : Wave :=
      { emitterId := e.id
        playerId := e.playerId
        type := e.type
        position := e.position
        angle := e.angle
        spreadAngle := e.spreadAngle
        radius := 10
        maxRadius := e.maxRadius
        speed := e.waveSpeed
        intensity := intensity
        frequency := frequency
        color := e.baseColor
        oscillatorType := e.oscillatorType
        filterType := e.filterType
        filterFrequency := e.filterFrequency
        filterQ := e.filterQ
        reverbAmount := e.reverbAmount
        gain := e.gain * intensity
        createdAt := createdAt }
    some (wave, { e with lastEmitTime := wave.createdAt })

end

/-- A concrete emitter used to instantiate the emitWave theorems. -/
noncomputable def sampleEmitter : Emitter :=
  { id := "e1"
    type := "default"
    playerId := 0
    position := (0, 0)
    active := true
    angle := 0
    spreadAngle := 360
    waveSpeed := 200
    waveDensity := 1
    lastEmitTime := 0
    baseColor := (255, 0, 0)
    pulseSize := 15
    maxRadius := 300
    baseFrequency := 220
    scaleType := "pentatonic"
    oscillatorType := "sine"
    filterType := "lowpass"
    filterFrequency := 1000
    filterQ := 1
    reverbAmount := 0.3
    gain := 0.4 }

/-! Theorems -/

/-- C7 counterexample: constructing a WaveField with resolution 0 is not
rejected; the constructor runs to completion and yields a field object whose
grid is empty and whose getCell answers null, contradicting the claim that
construction fails with a configuration error. -/
theorem C7_counterexample_construction_succeeds :
    (mkWaveField 800 600 0).grid = [] ∧ getCell (mkWaveField 800 600 0) 0 0 = none := by
  constructor
  · simp [mkWaveField]
  · simp [getCell, mkWaveField]

/-- C7 amended: constructing a WaveField with resolution = 0 performs no
validation and does not fail; it produces a field whose grid has length 0
and whose getCell returns null for every coordinate pair. -/
theorem C7_zero_resolution_accepted (w h : ℝ) (x y : ℤ) :
    (mkWaveField w h 0).grid = [] ∧ getCell (mkWaveField w h 0) x y = none := by
  refine ⟨by simp [mkWaveField], ?_⟩
  have hcond : x < 0 ∨ (((mkWaveField w h 0).resolution : ℤ) ≤ x ∨
      (y < 0 ∨ ((mkWaveField w h 0).resolution : ℤ) ≤ y)) := by
    rcases le_or_lt 0 x with hx | hx
    · exact Or.inr (Or.inl (by simpa [mkWaveField] using hx))
    · exact Or.inl hx
  simp only [getCell]
  rw [if_pos hcond]

/-- C8: clear() sets every cell's energy to 0, frequency to 440, color to
(0,0,0) and phase to 0, while every cell's velocity and lastActive and the
field's timeStep, resolution and grid length are unchanged. -/
theorem C8_clear_resets_exactly_and_preserves_rest (f : WaveField) (i : ℕ) :
    ((clear f).grid[i]?).map Cell.energy = (f.grid[i]?).map (fun _ => (0 : ℝ)) ∧
    ((clear f).grid[i]?).map Cell.frequency = (f.grid[i]?).map (fun _ => (440 : ℝ)) ∧
    ((clear f).grid[i]?).map Cell.color = (f.grid[i]?).map (fun _ => ((0 : ℝ), (0 : ℝ), (0 : ℝ))) ∧
    ((clear f).grid[i]?).map Cell.phase = (f.grid[i]?).map (fun _ => (0 : ℝ)) ∧
    ((clear f).grid[i]?).map Cell.velocity = (f.grid[i]?).map Cell.velocity ∧
    ((clear f).grid[i]?).map Cell.lastActive = (f.grid[i]?).map Cell.lastActive ∧
    (clear f).timeStep = f.timeStep ∧
    (clear f).resolution = f.resolution ∧
    (clear f).grid.length = f.grid.length := by
  cases h : f.grid[i]? with
  | none => simp [clear, h]
  | some c => simp [clear, h]

/-- C9: on exact arithmetic, worldToGrid inverts gridToWorld on every integer
grid coordinate pair whenever the cell dimensions are positive. -/
theorem C9_worldToGrid_inverts_gridToWorld (f : WaveField) (gx gy : ℤ)
    (hw : 0 < f.cellWidth) (hh : 0 < f.cellHeight) :
    worldToGrid f (gridToWorld f gx gy).1 (gridToWorld f gx gy).2 = (gx, gy) := by
  unfold worldToGrid gridToWorld
  have h1 : ((gx : ℝ) * f.cellWidth + f.cellWidth / 2) / f.cellWidth = (gx : ℝ) + 1 / 2 := by
    field_simp
    ring
  have h2 : ((gy : ℝ) * f.cellHeight + f.cellHeight / 2) / f.cellHeight = (gy : ℝ) + 1 / 2 := by
    field_simp
    ring
  have h3 : ⌊(gx : ℝ) + 1 / 2⌋ = gx := by
    rw [Int.floor_eq_iff]
    constructor
    · linarith
    · linarith
  have h4 : ⌊(gy : ℝ) + 1 / 2⌋ = gy := by
    rw [Int.floor_eq_iff]
    constructor
    · linarith
    · linarith
  simp only [h1, h2, h3, h4]

/-- C9 witness: the round trip at the constructed 64-resolution field and
grid cell (3, 5). -/
theorem C9_witness :
    0 < (mkWaveField 800 600 64).cellWidth ∧ 0 < (mkWaveField 800 600 64).cellHeight ∧
    worldToGrid (mkWaveField 800 600 64)
      (gridToWorld (mkWaveField 800 600 64) 3 5).1
      (gridToWorld (mkWaveField 800 600 64) 3 5).2 = (3, 5) := by
  have hw : 0 < (mkWaveField 800 600 64).cellWidth := by norm_num [mkWaveField]
  have hh : 0 < (mkWaveField 800 600 64).cellHeight := by norm_num [mkWaveField]
  exact ⟨hw, hh, C9_worldToGrid_inverts_gridToWorld (mkWaveField 800 600 64) 3 5 hw hh⟩

/-- C5: a wave survives updateTravelingWaves exactly when it arose from a
wave of the collection by that tick's growth and decay and the removal
predicate (radius at or past maxRadius, or intensity at or below 0.01)
does not hold for it; removed waves are dropped from the collection. -/
theorem C5_removal_predicate (dt : ℚ) (waves : List TravelingWave) (w : TravelingWave) :
    w ∈ updateTravelingWaves dt waves ↔
      ((∃ v ∈ waves, stepWave dt v = w) ∧
        ¬(w.maxRadius ≤ w.radius ∨ w.intensity ≤ 0.01)) := by
  simp only [updateTravelingWaves, List.mem_filter, List.mem_map, keepWave,
    Bool.and_eq_true, decide_eq_true_eq, not_or, not_le]

/-- C10: on an active emitter, emitWave takes createdAt (and the updated
lastEmitTime) from the real-time clock when the passed timestamp is 0 or
omitted, and from the passed timestamp exactly when it is nonzero. -/
theorem C10_emitWave_timestamp_fallback (e : Emitter) (intensity rand now t : ℝ)
    (hactive : e.active = true) (ht : t ≠ 0) :
    ((emitWave e intensity (some 0) rand now).map
        (fun p => (p.1.createdAt, p.2.lastEmitTime)) = some (now, now)) ∧
    ((emitWave e intensity none rand now).map
        (fun p => (p.1.createdAt, p.2.lastEmitTime)) = some (now, now)) ∧
    ((emitWave e intensity (some t) rand now).map
        (fun p => (p.1.createdAt, p.2.lastEmitTime)) = some (t, t)) := by
  simp [emitWave, hactive, ht]

/-- C10 witness: the three timestamp cases at a concrete active emitter,
clock reading 5 and nonzero timestamp 3. -/
theorem C10_witness :
    sampleEmitter.active = true ∧ (3 : ℝ) ≠ 0 ∧
    (((emitWave sampleEmitter 1 (some 0) 0 5).map
        (fun p => (p.1.createdAt, p.2.lastEmitTime)) = some (5, 5)) ∧
    ((emitWave sampleEmitter 1 none 0 5).map
        (fun p => (p.1.createdAt, p.2.lastEmitTime)) = some (5, 5)) ∧
    ((emitWave sampleEmitter 1 (some 3) 0 5).map
        (fun p => (p.1.createdAt, p.2.lastEmitTime)) = some (3, 3))) :=
  ⟨rfl, by norm_num,
    C10_emitWave_timestamp_fallback sampleEmitter 1 0 5 3 rfl (by norm_num)⟩

/-- The index-set fold of update() preserves the grid length. -/
theorem update_foldl_length (orig g0 : List Cell) (t : Cell → Cell) (l : List ℕ) :
    (l.foldl (fun g i =>
      match orig[i]? with
      | some c => g.set i (t c)
      | none => g) g0).length = g0.length := by
  induction l generalizing g0 with
  | nil => rfl
  | cons a l ih =>
    rw [List.foldl_cons, ih]
    cases orig[a]? <;> simp

/-- Element description of the index-set fold of update(): indices below the
scanned range hold the transformed original cell, the rest are untouched. -/
theorem update_foldl_getElem (orig : List Cell) (t : Cell → Cell) (k j : ℕ) :
    ((List.range k).foldl (fun g i =>
      match orig[i]? with
      | some c => g.set i (t c)
      | none => g) orig)[j]? =
      if j < k then (orig[j]?).map t else orig[j]? := by
  induction k with
  | zero => simp
  | succ k ih =>
    rw [List.range_succ, List.foldl_append, List.foldl_cons, List.foldl_nil]
    have hlen : ((List.range k).foldl (fun g i =>
        match orig[i]? with
        | some c => g.set i (t c)
        | none => g) orig).length = orig.length := update_foldl_length orig orig t _
    cases h : orig[k]? with
    | none =>
      simp only [h]
      rw [ih]
      rcases Nat.lt_trichotomy j k with hj | hj | hj
      · rw [if_pos hj, if_pos (Nat.lt_succ_of_lt hj)]
      · subst hj
        rw [if_neg (lt_irrefl j), if_pos (Nat.lt_succ_self j), h]
        rfl
      · rw [if_neg (Nat.lt_asymm hj), if_neg (by omega)]
    | some c =>
      simp only [h]
      by_cases hj : j = k
      · subst hj
        have hlt : j < orig.length := by
          rcases List.getElem?_eq_some_iff.1 h with ⟨hl, _⟩
          exact hl
        rw [List.getElem?_set_self (by rw [hlen]; exact hlt), if_pos (Nat.lt_succ_self j), h]
        rfl
      · rw [List.getElem?_set_ne (fun e => hj e.symm), ih]
        rcases Nat.lt_trichotomy j k with hlt | heq | hgt
        · rw [if_pos hlt, if_pos (Nat.lt_succ_of_lt hlt)]
        · exact absurd heq hj
        · rw [if_neg (Nat.lt_asymm hgt), if_neg (by omega)]

/-- The published grid of update() holds, at each index of the scanned
square, the transform of the old cell at that index, and elsewhere the
untouched copy. -/
theorem update_grid_getElem (f : WaveField) (dt : ℝ) (j : ℕ) :
    (update f dt).grid[j]? =
      if j < f.resolution * f.resolution
      then (f.grid[j]?).map (transformCell f.decayRate dt) else f.grid[j]? := by
  have hmap : f.grid.map (fun c => { c with velocity := (c.velocity.1, c.velocity.2) })
      = f.grid := List.map_id'' (fun c => rfl) f.grid
  show ((List.range (f.resolution * f.resolution)).foldl
      (fun g i =>
        match f.grid[i]? with
        | some c => g.set i (transformCell f.decayRate dt c)
        | none => g)
      (f.grid.map (fun c => { c with velocity := (c.velocity.1, c.velocity.2) })))[j]? = _
  rw [hmap]
  exact update_foldl_getElem f.grid (transformCell f.decayRate dt) _ j

/-- A cell returned by getCell is a member of the grid. -/
theorem mem_of_getCell (f : WaveField) (x y : ℤ) (cell : Cell)
    (h : getCell f x y = some cell) : cell ∈ f.grid := by
  unfold getCell at h
  split at h
  · exact absurd h (by simp)
  · exact List.getElem?_mem h

/-- The energy published by transformCell stays in the unit interval for a
nonnegative time step and a decay rate in the unit interval. -/
theorem transformCell_bounds (decayRate dt : ℝ) (c : Cell)
    (hd0 : 0 ≤ decayRate) (hd1 : decayRate ≤ 1) (hdt : 0 ≤ dt)
    (hc : 0 ≤ c.energy ∧ c.energy ≤ 1) :
    0 ≤ (transformCell decayRate dt c).energy ∧ (transformCell decayRate dt c).energy ≤ 1 := by
  have hp0 : 0 ≤ decayRate ^ (dt * 60) := Real.rpow_nonneg hd0 _
  have hp1 : decayRate ^ (dt * 60) ≤ 1 :=
    Real.rpow_le_one hd0 hd1 (mul_nonneg hdt (by norm_num))
  have he : (transformCell decayRate dt c).energy =
      if c.energy * decayRate ^ (dt * 60) < 0.01 then 0
      else c.energy * decayRate ^ (dt * 60) := rfl
  rw [he]
  split
  · norm_num
  · constructor
    · exact mul_nonneg hc.1 hp0
    · nlinarith [hc.1, hc.2, hp0, hp1]

/-- ringUpdate keeps every cell's energy in the unit interval when the pulse
intensity is nonnegative (the ring-profile factor is then in (0, 1], and the
energy write is min 1 of a sum of nonnegatives). -/
theorem ringUpdate_bounds (f : WaveField) (intensity freq : ℝ) (color : ℝ × ℝ × ℝ)
    (vx vy radius distance dirF : ℝ) (g : List Cell) (x y : ℤ)
    (hint : 0 ≤ intensity) (hg : ∀ c ∈ g, 0 ≤ c.energy ∧ c.energy ≤ 1) :
    ∀ c ∈ ringUpdate f intensity freq color vx vy radius distance dirF g x y,
      0 ≤ c.energy ∧ c.energy ≤ 1 := by
  intro c hc
  simp only [ringUpdate] at hc
  split at hc
  case isTrue hguard =>
    split at hc
    next heq => exact hg c hc
    next cell heq =>
      rcases List.mem_or_eq_of_mem_set hc with hm | rfl
      · exact hg c hm
      · have hcell := hg cell (List.getElem?_mem heq)
        have hwt : 0 < radius * 0.2 := lt_of_le_of_lt (abs_nonneg _) hguard
        have hci : 0 ≤ intensity * (1 - |distance - radius| / (radius * 0.2)) := by
          apply mul_nonneg hint
          have hlt : |distance - radius| / (radius * 0.2) < 1 := (div_lt_one hwt).2 hguard
          linarith
        exact ⟨le_min (by norm_num) (add_nonneg hcell.1 hci),
          min_le_left 1 (cell.energy + intensity * (1 - |distance - radius| / (radius * 0.2)))⟩
  case isFalse _ => exact hg c hc

/-- pulseStep keeps every cell's energy in the unit interval when the pulse
intensity is nonnegative. -/
theorem pulseStep_bounds (f : WaveField) (wx wy radius intensity freq : ℝ)
    (color : ℝ × ℝ × ℝ) (vx vy a spread : ℝ) (g : List Cell) (xy : ℤ × ℤ)
    (hint : 0 ≤ intensity) (hg : ∀ c ∈ g, 0 ≤ c.energy ∧ c.energy ≤ 1) :
    ∀ c ∈ pulseStep f wx wy radius intensity freq color vx vy a spread g xy,
      0 ≤ c.energy ∧ c.energy ≤ 1 := by
  intro c hc
  simp only [pulseStep] at hc
  split at hc
  · exact hg c hc
  · split at hc
    · split at hc
      · split at hc
        · split at hc
          · exact ringUpdate_bounds f intensity freq color vx vy radius _ _ g xy.1 xy.2
              hint hg c hc
          · exact hg c hc
        · split at hc
          · exact ringUpdate_bounds f intensity freq color vx vy radius _ _ g xy.1 xy.2
              hint hg c hc
          · exact hg c hc
      · exact ringUpdate_bounds f intensity freq color vx vy radius _ _ g xy.1 xy.2
          hint hg c hc
    · exact hg c hc

/-- The candidate fold of addWavePulse keeps every cell's energy in the unit
interval when the pulse intensity is nonnegative. -/
theorem foldl_pulseStep_bounds (f : WaveField) (wx wy radius intensity freq : ℝ)
    (color : ℝ × ℝ × ℝ) (vx vy a spread : ℝ) :
    0 ≤ intensity →
    ∀ (l : List (ℤ × ℤ)) (g : List Cell),
      (∀ c ∈ g, 0 ≤ c.energy ∧ c.energy ≤ 1) →
      ∀ c ∈ l.foldl (pulseStep f wx wy radius intensity freq color vx vy a spread) g,
        0 ≤ c.energy ∧ c.energy ≤ 1 := by
  intro hint l
  induction l with
  | nil => intro g hg; simpa using hg
  | cons p l ih =>
    intro g hg
    rw [List.foldl_cons]
    exact ih _ (pulseStep_bounds f wx wy radius intensity freq color vx vy a spread g p
      hint hg)

/-- No operation changes the decay rate. -/
theorem applyOp_decayRate (f : WaveField) (op : Op) :
    (applyOp f op).decayRate = f.decayRate := by
  cases op with
  | addEnergy gx gy amount freq color =>
    cases hcell : getCell f gx gy with
    | none => simp [applyOp, addEnergy, hcell]
    | some cell => simp [applyOp, addEnergy, hcell]
  | addWavePulse wx wy radius intensity freq color angle spread => rfl
  | update dt => rfl
  | clear => rfl

/-- One valid operation preserves the energy-bounds invariant. -/
theorem applyOp_energyBounds (f : WaveField) (op : Op) (hop : ValidOp op)
    (hf : EnergyBounds f) (hd0 : 0 ≤ f.decayRate) (hd1 : f.decayRate ≤ 1) :
    EnergyBounds (applyOp f op) := by
  cases op with
  | addEnergy gx gy amount freq color =>
    intro c hc
    cases hcell : getCell f gx gy with
    | none =>
      simp only [applyOp, addEnergy, hcell] at hc
      exact hf c hc
    | some cell =>
      simp only [applyOp, addEnergy, hcell] at hc
      rcases List.mem_or_eq_of_mem_set hc with hm | rfl
      · exact hf c hm
      · have hcell0 := hf cell (mem_of_getCell f gx gy cell hcell)
        have ham : (0 : ℝ) ≤ amount := hop
        exact ⟨le_min (by norm_num) (add_nonneg hcell0.1 ham),
          min_le_left 1 (cell.energy + amount)⟩
  | addWavePulse wx wy radius intensity freq color angle spread =>
    intro c hc
    simp only [applyOp, addWavePulse] at hc
    exact foldl_pulseStep_bounds f wx wy radius intensity freq color _ _ _ spread hop _
      f.grid hf c hc
  | update dt =>
    intro c hc
    simp only [applyOp] at hc
    rcases List.mem_iff_getElem?.1 hc with ⟨j, hj⟩
    rw [update_grid_getElem] at hj
    split at hj
    · rcases Option.map_eq_some'.1 hj with ⟨c0, hc0, rfl⟩
      exact transformCell_bounds f.decayRate dt c0 hd0 hd1 hop
        (hf c0 (List.getElem?_mem hc0))
    · exact hf c (List.getElem?_mem hj)
  | clear =>
    intro c hc
    simp only [applyOp, clear] at hc
    rcases List.mem_map.1 hc with ⟨c0, _, rfl⟩
    exact ⟨le_refl 0, by norm_num⟩

/-- C2: starting from any constructed field, every sequence of valid
operations (nonnegative injected amounts and intensities, nonnegative time
steps) keeps every cell's energy in [0, 1]; every prefix of a sequence is
itself a sequence, so the bound holds at all times, in particular after
every update. -/
theorem C2_energy_bounds_all_ops (w h : ℝ) (res : ℕ) (ops : List Op)
    (hv : ∀ op ∈ ops, ValidOp op) :
    EnergyBounds (ops.foldl applyOp (mkWaveField w h res)) := by
  have hmain : ∀ (l : List Op) (f : WaveField), (∀ op ∈ l, ValidOp op) →
      EnergyBounds f → 0 ≤ f.decayRate → f.decayRate ≤ 1 →
      EnergyBounds (l.foldl applyOp f) := by
    intro l
    induction l with
    | nil =>
      intro f _ hf _ _
      simpa using hf
    | cons op l ih =>
      intro f hvl hf hd0 hd1
      rw [List.foldl_cons]
      exact ih (applyOp f op) (fun o ho => hvl o (List.mem_cons_of_mem _ ho))
        (applyOp_energyBounds f op (hvl op (List.mem_cons_self _ _)) hf hd0 hd1)
        (by rw [applyOp_decayRate]; exact hd0)
        (by rw [applyOp_decayRate]; exact hd1)
  apply hmain ops (mkWaveField w h res) hv
  · intro c hc
    simp only [mkWaveField] at hc
    rw [List.eq_of_mem_replicate hc]
    exact ⟨le_refl 0, by norm_num⟩
  · norm_num [mkWaveField]
  · norm_num [mkWaveField]

/-- C2 witness: the bound at a concrete field and a concrete valid sequence
of one injection, one pulse, one update and a clear. -/
theorem C2_witness :
    (∀ op ∈ [Op.addEnergy 0 0 0.5 440 (0, 0, 0),
             Op.addWavePulse 4 4 3 0.5 440 (255, 0, 0) 0 360,
             Op.update (1 / 60), Op.clear], ValidOp op) ∧
    EnergyBounds ([Op.addEnergy 0 0 0.5 440 (0, 0, 0),
             Op.addWavePulse 4 4 3 0.5 440 (255, 0, 0) 0 360,
             Op.update (1 / 60), Op.clear].foldl applyOp (mkWaveField 8 8 2)) := by
  have hv : ∀ op ∈ [Op.addEnergy 0 0 0.5 440 (0, 0, 0),
      Op.addWavePulse 4 4 3 0.5 440 (255, 0, 0) 0 360,
      Op.update (1 / 60), Op.clear], ValidOp op := by
    intro op hop
    fin_cases hop <;> norm_num [ValidOp]
  exact ⟨hv, C2_energy_bounds_all_ops 8 8 2 _ hv⟩

/-- ringUpdate preserves the grid length. -/
theorem ringUpdate_length (f : WaveField) (intensity freq : ℝ) (color : ℝ × ℝ × ℝ)
    (vx vy radius distance dirF : ℝ) (g : List Cell) (x y : ℤ) :
    (ringUpdate f intensity freq color vx vy radius distance dirF g x y).length = g.length := by
  simp only [ringUpdate]
  split
  · split
    · rfl
    · simp
  · rfl

/-- pulseStep preserves the grid length. -/
theorem pulseStep_length (f : WaveField) (wx wy radius intensity freq : ℝ)
    (color : ℝ × ℝ × ℝ) (vx vy a spread : ℝ) (g : List Cell) (xy : ℤ × ℤ) :
    (pulseStep f wx wy radius intensity freq color vx vy a spread g xy).length = g.length := by
  simp only [pulseStep]
  split
  · rfl
  · split
    · split
      · split
        · split
          · exact ringUpdate_length f intensity freq color vx vy radius _ _ g xy.1 xy.2
          · rfl
        · split
          · exact ringUpdate_length f intensity freq color vx vy radius _ _ g xy.1 xy.2
          · rfl
      · exact ringUpdate_length f intensity freq color vx vy radius _ _ g xy.1 xy.2
    · rfl

/-- The candidate fold of addWavePulse preserves the grid length. -/
theorem foldl_pulseStep_length (f : WaveField) (wx wy radius intensity freq : ℝ)
    (color : ℝ × ℝ × ℝ) (vx vy a spread : ℝ) :
    ∀ (l : List (ℤ × ℤ)) (g : List Cell),
      (l.foldl (pulseStep f wx wy radius intensity freq color vx vy a spread) g).length
        = g.length := by
  intro l
  induction l with
  | nil => intro g; rfl
  | cons p l ih =>
    intro g
    rw [List.foldl_cons, ih]
    exact pulseStep_length f wx wy radius intensity freq color vx vy a spread g p

/-- addWavePulse preserves the grid length. -/
theorem addWavePulse_grid_length (f : WaveField) (wx wy radius intensity freq : ℝ)
    (color : ℝ × ℝ × ℝ) (angle spread : ℝ) :
    (addWavePulse f wx wy radius intensity freq color angle spread).grid.length
      = f.grid.length := by
  simp only [addWavePulse]
  exact foldl_pulseStep_length f wx wy radius intensity freq color _ _ _ spread _ f.grid

/-- update preserves the grid length. -/
theorem update_grid_length (f : WaveField) (dt : ℝ) :
    (update f dt).grid.length = f.grid.length := by
  simp only [update]
  rw [update_foldl_length]
  simp

/-- ringUpdate preserves the ring invariant: when the distance guard of the
enclosing pulseStep holds, the one cell it touches is on the ring. -/
theorem ringUpdate_ring_inv (f : WaveField) (wx wy intensity freq : ℝ)
    (color : ℝ × ℝ × ℝ) (vx vy radius distance dirF : ℝ) (g : List Cell) (a b : ℤ)
    (han : a < (f.resolution : ℤ)) (hbn : b < (f.resolution : ℤ))
    (hdist : distance ≤ radius)
    (hdisteq : distance = cellDist f a.toNat b.toNat wx wy)
    (hinv : RingInv f wx wy radius g) :
    RingInv f wx wy radius (ringUpdate f intensity freq color vx vy radius distance dirF g a b) := by
  intro x y hx hy c hc
  simp only [ringUpdate] at hc
  split at hc
  case isTrue hguard =>
    split at hc
    next => exact hinv x y hx hy c hc
    next cell heq =>
      rw [List.getElem?_set] at hc
      split at hc
      case isTrue heqidx =>
        split at hc
        case isTrue hlt =>
          have hn : 0 < f.resolution := by omega
          have ha' : a.toNat < f.resolution := by omega
          have hb' : b.toNat < f.resolution := by omega
          have h1 : (b.toNat * f.resolution + a.toNat) % f.resolution = a.toNat := by
            rw [Nat.mul_comm b.toNat f.resolution, Nat.mul_add_mod, Nat.mod_eq_of_lt ha']
          have h2 : (y * f.resolution + x) % f.resolution = x := by
            rw [Nat.mul_comm y f.resolution, Nat.mul_add_mod, Nat.mod_eq_of_lt hx]
          rw [heqidx, h2] at h1
          have hxx : x = a.toNat := h1
          have hyy : y = b.toNat := by
            have hsum := heqidx
            rw [hxx] at hsum
            have hmul : b.toNat * f.resolution = y * f.resolution :=
              Nat.add_right_cancel hsum
            exact (Nat.eq_of_mul_eq_mul_right hn hmul).symm
          refine Or.inr ⟨?_, ?_⟩
          · rw [hxx, hyy, ← hdisteq]
            exact hdist
          · rw [hxx, hyy, ← hdisteq]
            exact hguard
        case isFalse _ => exact absurd hc (by simp)
      case isFalse _ => exact hinv x y hx hy c hc
  case isFalse _ => exact hinv x y hx hy c hc

/-- pulseStep preserves the ring invariant: the only cell it can touch has
passed the distance guard and the ring-thickness guard. -/
theorem pulseStep_ring_inv (f : WaveField) (wx wy radius intensity freq : ℝ)
    (color : ℝ × ℝ × ℝ) (vx vy a spread : ℝ) (g : List Cell) (xy : ℤ × ℤ)
    (hinv : RingInv f wx wy radius g) :
    RingInv f wx wy radius
      (pulseStep f wx wy radius intensity freq color vx vy a spread g xy) := by
  intro x y hx hy c hc
  simp only [pulseStep] at hc
  split at hc
  · exact hinv x y hx hy c hc
  case isFalse hbnd =>
    push_neg at hbnd
    obtain ⟨hx0, hxn, hy0, hyn⟩ := hbnd
    split at hc
    case isTrue hdist =>
      have hdisteq : Real.sqrt
          (((gridToWorld f xy.1 xy.2).1 - wx) * ((gridToWorld f xy.1 xy.2).1 - wx) +
            ((gridToWorld f xy.1 xy.2).2 - wy) * ((gridToWorld f xy.1 xy.2).2 - wy)) =
          cellDist f xy.1.toNat xy.2.toNat wx wy := by
        unfold cellDist
        rw [Int.toNat_of_nonneg hx0, Int.toNat_of_nonneg hy0]
      split at hc
      · split at hc
        · split at hc
          · exact ringUpdate_ring_inv f wx wy intensity freq color vx vy radius _ _ g
              xy.1 xy.2 hxn hyn hdist hdisteq hinv x y hx hy c hc
          · exact hinv x y hx hy c hc
        · split at hc
          · exact ringUpdate_ring_inv f wx wy intensity freq color vx vy radius _ _ g
              xy.1 xy.2 hxn hyn hdist hdisteq hinv x y hx hy c hc
          · exact hinv x y hx hy c hc
      · exact ringUpdate_ring_inv f wx wy intensity freq color vx vy radius _ _ g
          xy.1 xy.2 hxn hyn hdist hdisteq hinv x y hx hy c hc
    case isFalse _ => exact hinv x y hx hy c hc

/-- The candidate fold of addWavePulse preserves the ring invariant. -/
theorem foldl_pulseStep_ring_inv (f : WaveField) (wx wy radius intensity freq : ℝ)
    (color : ℝ × ℝ × ℝ) (vx vy a spread : ℝ) :
    ∀ (l : List (ℤ × ℤ)) (g : List Cell), RingInv f wx wy radius g →
      RingInv f wx wy radius
        (l.foldl (pulseStep f wx wy radius intensity freq color vx vy a spread) g) := by
  intro l
  induction l with
  | nil => intro g hg; simpa using hg
  | cons p l ih =>
    intro g hg
    rw [List.foldl_cons]
    exact ih _ (pulseStep_ring_inv f wx wy radius intensity freq color vx vy a spread g p hg)

/-- C3: an omnidirectional pulse on an all-zero field leaves energy exactly 0
at every in-bounds cell whose center is at least one wave thickness
(0.2 * radius) away from the ring, and a cell can end up with nonzero energy
only if its center is within the radius and strictly within one wave
thickness of the ring. -/
theorem C3_pulse_ring_shape (f : WaveField) (wx wy radius intensity freq : ℝ)
    (color : ℝ × ℝ × ℝ) (x y : ℕ)
    (hzero : ∀ c ∈ f.grid, c.energy = 0)
    (hlen : f.grid.length = f.resolution * f.resolution)
    (hx : x < f.resolution) (hy : y < f.resolution)
    (hint : 0 < intensity) :
    (0.2 * radius ≤ |cellDist f x y wx wy - radius| →
      energyAt (addWavePulse f wx wy radius intensity freq color 0 360)
        (y * f.resolution + x) = some 0) ∧
    (energyAt (addWavePulse f wx wy radius intensity freq color 0 360)
        (y * f.resolution + x) ≠ some 0 →
      cellDist f x y wx wy ≤ radius ∧ |cellDist f x y wx wy - radius| < 0.2 * radius) := by
  have hinv0 : RingInv f wx wy radius f.grid := fun x' y' _ _ c hc =>
    Or.inl (hzero c (List.getElem?_mem hc))
  have hinv : RingInv f wx wy radius
      (addWavePulse f wx wy radius intensity freq color 0 360).grid := by
    simp only [addWavePulse]
    exact foldl_pulseStep_ring_inv f wx wy radius intensity freq color _ _ _ 360 _ f.grid hinv0
  have hlen' : (addWavePulse f wx wy radius intensity freq color 0 360).grid.length
      = f.grid.length := addWavePulse_grid_length f wx wy radius intensity freq color 0 360
  have hidx : y * f.resolution + x
      < (addWavePulse f wx wy radius intensity freq color 0 360).grid.length := by
    rw [hlen', hlen]
    have h1 : y * f.resolution + x < (y + 1) * f.resolution := by
      rw [add_mul, one_mul]
      omega
    have h2 : (y + 1) * f.resolution ≤ f.resolution * f.resolution :=
      Nat.mul_le_mul_right f.resolution (by omega)
    exact lt_of_lt_of_le h1 h2
  obtain ⟨c, hc⟩ : ∃ c,
      (addWavePulse f wx wy radius intensity freq color 0 360).grid[y * f.resolution + x]?
        = some c := ⟨_, List.getElem?_eq_getElem hidx⟩
  have hdisj := hinv x y hx hy c hc
  constructor
  · intro hfar
    rcases hdisj with h0 | hring
    · simp [energyAt, hc, h0]
    · exfalso
      have h2 := hring.2
      linarith
  · intro hne
    rcases hdisj with h0 | hring
    · exact absurd (by simp [energyAt, hc, h0]) hne
    · exact ⟨hring.1, by linarith [hring.2]⟩

/-- C3 witness: the ring-shape conclusion at a concrete 2 x 2 field, an
omnidirectional radius-100 unit pulse at the origin and cell (0, 0). -/
theorem C3_witness :
    (∀ c ∈ (mkWaveField 8 8 2).grid, c.energy = 0) ∧
    (mkWaveField 8 8 2).grid.length
      = (mkWaveField 8 8 2).resolution * (mkWaveField 8 8 2).resolution ∧
    0 < (mkWaveField 8 8 2).resolution ∧ (0 : ℝ) < 1 ∧
    ((0.2 * 100 ≤ |cellDist (mkWaveField 8 8 2) 0 0 0 0 - 100| →
      energyAt (addWavePulse (mkWaveField 8 8 2) 0 0 100 1 440 (255, 0, 0) 0 360)
        (0 * (mkWaveField 8 8 2).resolution + 0) = some 0) ∧
    (energyAt (addWavePulse (mkWaveField 8 8 2) 0 0 100 1 440 (255, 0, 0) 0 360)
        (0 * (mkWaveField 8 8 2).resolution + 0) ≠ some 0 →
      cellDist (mkWaveField 8 8 2) 0 0 0 0 ≤ 100 ∧
        |cellDist (mkWaveField 8 8 2) 0 0 0 0 - 100| < 0.2 * 100)) := by
  have hzero : ∀ c ∈ (mkWaveField 8 8 2).grid, c.energy = 0 := by
    intro c hc
    simp only [mkWaveField] at hc
    rw [List.eq_of_mem_replicate hc]
  have hlen : (mkWaveField 8 8 2).grid.length
      = (mkWaveField 8 8 2).resolution * (mkWaveField 8 8 2).resolution := by
    simp [mkWaveField]
  have hres : 0 < (mkWaveField 8 8 2).resolution := by
    simp [mkWaveField]
  exact ⟨hzero, hlen, hres, by norm_num,
    C3_pulse_ring_shape (mkWaveField 8 8 2) 0 0 100 1 440 (255, 0, 0) 0 0
      hzero hlen hres hres (by norm_num)⟩

/-- update preserves the resolution. -/
theorem update_resolution (f : WaveField) (dt : ℝ) : (update f dt).resolution = f.resolution :=
  rfl

/-- update preserves the decay rate. -/
theorem update_decayRate (f : WaveField) (dt : ℝ) : (update f dt).decayRate = f.decayRate :=
  rfl

/-- One update step of the energy at an index of the scanned grid: decay by
the frame-normalized factor, then snap to exactly 0 below 0.01. -/
theorem update_enAt (f : WaveField) (dt : ℝ) (j : ℕ)
    (hlen : f.grid.length = f.resolution * f.resolution) (hj : j < f.grid.length) :
    enAt (update f dt) j =
      if enAt f j * f.decayRate ^ (dt * 60) < 0.01 then 0
      else enAt f j * f.decayRate ^ (dt * 60) := by
  obtain ⟨c, hc⟩ : ∃ c, f.grid[j]? = some c := ⟨_, List.getElem?_eq_getElem hj⟩
  have hjr : j < f.resolution * f.resolution := by
    rw [← hlen]
    exact hj
  simp only [enAt, update_grid_getElem, if_pos hjr, hc, Option.map_some', Option.getD_some]
  rfl

/-- Iterated update preserves the resolution. -/
theorem iterUpdate_resolution (f : WaveField) (dt : ℝ) :
    ∀ n, (iterUpdate f dt n).resolution = f.resolution := by
  intro n
  induction n with
  | zero => rfl
  | succ n ih => rw [iterUpdate, update_resolution, ih]

/-- Iterated update preserves the decay rate. -/
theorem iterUpdate_decayRate (f : WaveField) (dt : ℝ) :
    ∀ n, (iterUpdate f dt n).decayRate = f.decayRate := by
  intro n
  induction n with
  | zero => rfl
  | succ n ih => rw [iterUpdate, update_decayRate, ih]

/-- Iterated update preserves the grid length. -/
theorem iterUpdate_grid_length (f : WaveField) (dt : ℝ) :
    ∀ n, (iterUpdate f dt n).grid.length = f.grid.length := by
  intro n
  induction n with
  | zero => rfl
  | succ n ih => rw [iterUpdate, update_grid_length, ih]

/-- C4: with no injections between ticks, a fixed positive time step, the
constructed decay rate and in-range starting energies, every cell's energy
is non-increasing from one update to the next, and from some finite tick on
it is exactly 0 at every index. -/
theorem C4_decay_monotone_and_reaches_zero (f : WaveField) (dt : ℝ)
    (hdt : 0 < dt) (hdecay : f.decayRate = 0.98)
    (hlen : f.grid.length = f.resolution * f.resolution)
    (hb : EnergyBounds f) :
    (∀ n j, enAt (iterUpdate f dt (n + 1)) j ≤ enAt (iterUpdate f dt n) j) ∧
    (∃ N, ∀ n, N ≤ n → ∀ j, enAt (iterUpdate f dt n) j = 0) := by
  have hc0 : (0 : ℝ) ≤ (0.98 : ℝ) ^ (dt * 60) := Real.rpow_nonneg (by norm_num) _
  have hc1 : (0.98 : ℝ) ^ (dt * 60) < 1 :=
    Real.rpow_lt_one (by norm_num) (by norm_num) (mul_pos hdt (by norm_num))
  have houtside : ∀ n j, f.grid.length ≤ j → enAt (iterUpdate f dt n) j = 0 := by
    intro n j hj
    unfold enAt
    rw [List.getElem?_eq_none (by rw [iterUpdate_grid_length]; exact hj)]
    rfl
  have hrec : ∀ n j, j < f.grid.length →
      enAt (iterUpdate f dt (n + 1)) j =
        if enAt (iterUpdate f dt n) j * (0.98 : ℝ) ^ (dt * 60) < 0.01 then 0
        else enAt (iterUpdate f dt n) j * (0.98 : ℝ) ^ (dt * 60) := by
    intro n j hj
    have h := update_enAt (iterUpdate f dt n) dt j
      (by rw [iterUpdate_grid_length, iterUpdate_resolution, hlen])
      (by rw [iterUpdate_grid_length]; exact hj)
    rw [iterUpdate_decayRate, hdecay] at h
    exact h
  have hbound : ∀ n j, 0 ≤ enAt (iterUpdate f dt n) j ∧
      enAt (iterUpdate f dt n) j ≤ ((0.98 : ℝ) ^ (dt * 60)) ^ n := by
    intro n
    induction n with
    | zero =>
      intro j
      rcases lt_or_ge j f.grid.length with hj | hj
      · obtain ⟨c, hc⟩ : ∃ c, f.grid[j]? = some c := ⟨_, List.getElem?_eq_getElem hj⟩
        have hcb := hb c (List.getElem?_mem hc)
        have he : enAt (iterUpdate f dt 0) j = c.energy := by
          simp [iterUpdate, enAt, hc]
        rw [he, pow_zero]
        exact hcb
      · rw [houtside 0 j hj, pow_zero]
        norm_num
    | succ n ih =>
      intro j
      rcases lt_or_ge j f.grid.length with hj | hj
      · rw [hrec n j hj]
        split
        · exact ⟨le_refl 0, pow_nonneg hc0 _⟩
        · constructor
          · exact mul_nonneg (ih j).1 hc0
          · rw [pow_succ]
            exact mul_le_mul_of_nonneg_right (ih j).2 hc0
      · rw [houtside (n + 1) j hj]
        exact ⟨le_refl 0, pow_nonneg hc0 _⟩
  constructor
  · intro n j
    rcases lt_or_ge j f.grid.length with hj | hj
    · rw [hrec n j hj]
      split
      · exact (hbound n j).1
      · exact mul_le_of_le_one_right (hbound n j).1 hc1.le
    · rw [houtside (n + 1) j hj, houtside n j hj]
  · obtain ⟨N, hN⟩ := exists_pow_lt_of_lt_one (show (0 : ℝ) < 0.01 by norm_num) hc1
    refine ⟨N + 1, ?_⟩
    intro n hn j
    rcases lt_or_ge j f.grid.length with hj | hj
    · obtain ⟨m, rfl⟩ : ∃ m, n = m + 1 := ⟨n - 1, by omega⟩
      rw [hrec m j hj, if_pos]
      have h1 : enAt (iterUpdate f dt m) j * (0.98 : ℝ) ^ (dt * 60)
          ≤ enAt (iterUpdate f dt m) j :=
        mul_le_of_le_one_right (hbound m j).1 hc1.le
      have h2 : enAt (iterUpdate f dt m) j ≤ ((0.98 : ℝ) ^ (dt * 60)) ^ m := (hbound m j).2
      have h3 : ((0.98 : ℝ) ^ (dt * 60)) ^ m ≤ ((0.98 : ℝ) ^ (dt * 60)) ^ N :=
        pow_le_pow_of_le_one hc0 hc1.le (by omega)
      linarith
    · exact houtside n j hj

/-- C4 witness: a concrete single-cell field with the constructed decay rate
and time step 1. -/
theorem C4_witness :
    (0 : ℝ) < 1 ∧ (mkWaveField 8 8 1).decayRate = 0.98 ∧
    (mkWaveField 8 8 1).grid.length
      = (mkWaveField 8 8 1).resolution * (mkWaveField 8 8 1).resolution ∧
    EnergyBounds (mkWaveField 8 8 1) ∧
    ((∀ n j, enAt (iterUpdate (mkWaveField 8 8 1) 1 (n + 1)) j
        ≤ enAt (iterUpdate (mkWaveField 8 8 1) 1 n) j) ∧
      (∃ N, ∀ n, N ≤ n → ∀ j, enAt (iterUpdate (mkWaveField 8 8 1) 1 n) j = 0)) := by
  have hb : EnergyBounds (mkWaveField 8 8 1) := by
    intro c hc
    simp only [mkWaveField] at hc
    rw [List.eq_of_mem_replicate hc]
    exact ⟨le_refl 0, by norm_num⟩
  have hlen : (mkWaveField 8 8 1).grid.length
      = (mkWaveField 8 8 1).resolution * (mkWaveField 8 8 1).resolution := by
    simp [mkWaveField]
  exact ⟨by norm_num, rfl, hlen, hb,
    C4_decay_monotone_and_reaches_zero (mkWaveField 8 8 1) 1 (by norm_num) rfl hlen hb⟩

/-- Absolute difference of reals, first ordering (conditional rewrite used
to evaluate the closest-note scan at concrete semitone values). -/
theorem abs_sub_of_le (a b : ℝ) (h : b ≤ a) : |a - b| = a - b :=
  abs_of_nonneg (by linarith)

/-- Absolute difference of reals, second ordering. -/
theorem abs_sub_of_ge (a b : ℝ) (h : a ≤ b) : |a - b| = b - a := by
  rw [abs_sub_comm]
  exact abs_of_nonneg (by linarith)

/-- JS fmod fixes a value already in [0, 12). -/
theorem jsFmod_small (r : ℝ) (h0 : 0 ≤ r) (h12 : r < 12) : jsFmod r 12 = r := by
  unfold jsFmod jsTrunc
  rw [if_pos (div_nonneg h0 (by norm_num))]
  have hf : ⌊r / 12⌋ = 0 := by
    rw [Int.floor_eq_iff]
    constructor
    · push_cast
      positivity
    · push_cast
      rw [div_lt_iff₀ (by norm_num : (0 : ℝ) < 12)]
      linarith
  rw [hf]
  push_cast
  ring

/-- JS fmod of a value in [12, 24) subtracts one period. -/
theorem jsFmod_small_add (r : ℝ) (h0 : 0 ≤ r) (h12 : r < 12) : jsFmod (r + 12) 12 = r := by
  unfold jsFmod jsTrunc
  rw [if_pos (div_nonneg (by linarith) (by norm_num))]
  have hf : ⌊(r + 12) / 12⌋ = 1 := by
    rw [Int.floor_eq_iff]
    constructor
    · push_cast
      rw [le_div_iff₀ (by norm_num : (0 : ℝ) < 12)]
      linarith
    · push_cast
      rw [div_lt_iff₀ (by norm_num : (0 : ℝ) < 12)]
      linarith
  rw [hf]
  push_cast
  ring

/-- The double-fmod normalization of Utils.js 25 equals the mathematical
residue `s - 12 * floor (s / 12)`, for every real `s`. -/
theorem jsFmod_chain (s : ℝ) : jsFmod (jsFmod s 12 + 12) 12 = s - 12 * ⌊s / 12⌋ := by
  have hfr0 := Int.fract_nonneg (s / 12)
  have hfr1 := Int.fract_lt_one (s / 12)
  have hrval : s - 12 * ⌊s / 12⌋ = 12 * Int.fract (s / 12) := by
    rw [← Int.self_sub_floor]
    ring
  rcases le_or_lt 0 s with hs | hs
  · have htr : jsTrunc (s / 12) = ⌊s / 12⌋ := if_pos (div_nonneg hs (by norm_num))
    have h1 : jsFmod s 12 = s - 12 * ⌊s / 12⌋ := by
      unfold jsFmod
      rw [htr]
    rw [h1]
    exact jsFmod_small_add _ (by rw [hrval]; linarith) (by rw [hrval]; linarith)
  · have hneg : s / 12 < 0 := div_neg_of_neg_of_pos hs (by norm_num)
    have htr : jsTrunc (s / 12) = ⌈s / 12⌉ := if_neg (not_le.2 hneg)
    have hfd : Int.fract (s / 12) = s / 12 - (⌊s / 12⌋ : ℝ) := (Int.self_sub_floor _).symm
    rcases eq_or_lt_of_le hfr0 with hf0 | hfpos
    · have hx : s / 12 = ((⌊s / 12⌋ : ℤ) : ℝ) := by
        have h := Int.floor_add_fract (s / 12)
        rw [← hf0, add_zero] at h
        exact h.symm
      have hz : (⌈s / 12⌉ : ℤ) = ⌊s / 12⌋ := by
        rw [hx, Int.ceil_intCast, Int.floor_intCast]
      have hr0 : s - 12 * ⌊s / 12⌋ = 0 := by
        rw [hrval, ← hf0]
        ring
      have h1 : jsFmod s 12 = 0 := by
        unfold jsFmod
        rw [htr, hz]
        linarith
      rw [h1, hr0]
      exact jsFmod_small_add 0 (le_refl 0) (by norm_num)
    · have hz : (⌈s / 12⌉ : ℤ) = ⌊s / 12⌋ + 1 := by
        rw [Int.ceil_eq_iff]
        constructor
        · push_cast
          rw [hfd] at hfpos
          linarith
        · push_cast
          have := Int.lt_floor_add_one (s / 12)
          linarith
      have h1 : jsFmod s 12 = s - 12 * ⌊s / 12⌋ - 12 := by
        unfold jsFmod
        rw [htr, hz]
        push_cast
        ring
      rw [h1]
      have harg : s - 12 * ⌊s / 12⌋ - 12 + 12 = s - 12 * ⌊s / 12⌋ := by ring
      rw [harg]
      exact jsFmod_small _ (by rw [hrval]; linarith) (by rw [hrval]; linarith)

/-- One step of the closest-note scan keeps or replaces the current note by
the scanned note or its lower octave. -/
theorem snapStep_snd_mem (s : ℝ) (st : Option ℝ × ℤ) (p : ℤ) :
    (snapStep s st p).2 = st.2 ∨ (snapStep s st p).2 = p ∨ (snapStep s st p).2 = p - 12 := by
  obtain ⟨m, cn⟩ := st
  cases m with
  | none =>
    simp only [snapStep]
    split
    · simp
    · simp
  | some mv =>
    simp only [snapStep]
    split
    · simp
    · split
      · simp
      · split
        · simp
        · simp

/-- The closest-note scan ends on the initial note, a scanned note, or a
scanned note an octave lower. -/
theorem closestNote_cases (s : ℝ) :
    ∀ (l : List ℤ) (st : Option ℝ × ℤ),
      (l.foldl (snapStep s) st).2 = st.2 ∨
        ∃ p ∈ l, (l.foldl (snapStep s) st).2 = p ∨ (l.foldl (snapStep s) st).2 = p - 12 := by
  intro l
  induction l with
  | nil =>
    intro st
    exact Or.inl rfl
  | cons q l ih =>
    intro st
    rw [List.foldl_cons]
    rcases ih (snapStep s st q) with h | ⟨p, hp, h⟩
    · rcases snapStep_snd_mem s st q with h2 | h2 | h2
      · exact Or.inl (h.trans h2)
      · exact Or.inr ⟨q, List.mem_cons_self q l, Or.inl (h.trans h2)⟩
      · exact Or.inr ⟨q, List.mem_cons_self q l, Or.inr (h.trans h2)⟩
    · exact Or.inr ⟨p, List.mem_cons_of_mem q hp, h⟩

/-- Every snapped frequency is 440 * 2 ^ ((12 * octave + scale tone) / 12)
for some integer octave and some tone of the major pattern. -/
theorem snapToScale_major_form (freq : ℝ) :
    ∃ o p : ℤ, p ∈ scales majorType ∧
      snapToScale freq majorType = 440 * (2 : ℝ) ^ (((12 * o + p : ℤ) : ℝ) / 12) := by
  set s := jsFmod (jsFmod (12 * Real.logb 2 (freq / 440)) 12 + 12) 12 with hs
  set o := ⌊12 * Real.logb 2 (freq / 440) / 12⌋ with ho
  have hsnap : snapToScale freq majorType =
      440 * (2 : ℝ) ^ (((o * 12 + closestNote s (scales majorType) : ℤ) : ℝ) / 12) := rfl
  rcases closestNote_cases s (scales majorType) (none, 0) with h | ⟨p, hp, h | h⟩
  · refine ⟨o, 0, by simp [scales, majorType], ?_⟩
    have hcn : closestNote s (scales majorType) = 0 := h
    rw [hsnap, hcn]
    have he : (o * 12 + 0 : ℤ) = 12 * o + 0 := by ring
    rw [he]
  · refine ⟨o, p, hp, ?_⟩
    have hcn : closestNote s (scales majorType) = p := h
    rw [hsnap, hcn]
    have he : (o * 12 + p : ℤ) = 12 * o + p := by ring
    rw [he]
  · refine ⟨o - 1, p, hp, ?_⟩
    have hcn : closestNote s (scales majorType) = p - 12 := h
    rw [hsnap, hcn]
    have he : (o * 12 + (p - 12) : ℤ) = 12 * (o - 1) + p := by ring
    rw [he]

/-- A frequency already of the snapped form is a fixed point of
snapToScale on the major scale. -/
theorem snapToScale_major_fixed (o p : ℤ) (hp : p ∈ scales majorType) :
    snapToScale (440 * (2 : ℝ) ^ (((12 * o + p : ℤ) : ℝ) / 12)) majorType
      = 440 * (2 : ℝ) ^ (((12 * o + p : ℤ) : ℝ) / 12) := by
  have hp' : p = 0 ∨ p = 2 ∨ p = 4 ∨ p = 5 ∨ p = 7 ∨ p = 9 ∨ p = 11 := by
    simpa [scales, majorType] using hp
  have hp0 : (0 : ℤ) ≤ p := by omega
  have hp12 : p < (12 : ℤ) := by omega
  have hdiv : (440 : ℝ) * (2 : ℝ) ^ (((12 * o + p : ℤ) : ℝ) / 12) / 440
      = (2 : ℝ) ^ (((12 * o + p : ℤ) : ℝ) / 12) :=
    mul_div_cancel_left₀ _ (by norm_num)
  have hlogb : Real.logb 2 ((2 : ℝ) ^ (((12 * o + p : ℤ) : ℝ) / 12))
      = ((12 * o + p : ℤ) : ℝ) / 12 :=
    Real.logb_rpow (by norm_num) (by norm_num)
  have hsem : 12 * Real.logb 2 (440 * (2 : ℝ) ^ (((12 * o + p : ℤ) : ℝ) / 12) / 440)
      = ((12 * o + p : ℤ) : ℝ) := by
    rw [hdiv, hlogb]
    ring
  have hfloor : ⌊((12 * o + p : ℤ) : ℝ) / 12⌋ = o := by
    rw [Int.floor_eq_iff]
    have hpr0 : (0 : ℝ) ≤ (p : ℝ) := by exact_mod_cast hp0
    have hpr12 : (p : ℝ) < 12 := by exact_mod_cast hp12
    constructor
    · push_cast
      rw [le_div_iff₀ (by norm_num : (0 : ℝ) < 12)]
      linarith
    · push_cast
      rw [div_lt_iff₀ (by norm_num : (0 : ℝ) < 12)]
      linarith
  have hresid : jsFmod (jsFmod ((12 * o + p : ℤ) : ℝ) 12 + 12) 12 = ((p : ℤ) : ℝ) := by
    rw [jsFmod_chain, hfloor]
    push_cast
    ring
  have hcn : closestNote ((p : ℤ) : ℝ) (scales majorType) = p := by
    rcases hp' with rfl | rfl | rfl | rfl | rfl | rfl | rfl <;>
      norm_num [closestNote, scales, majorType, snapStep, abs_sub_of_le, abs_sub_of_ge]
  have hexp : (o * 12 + p : ℤ) = 12 * o + p := by ring
  show 440 * (2 : ℝ) ^
      (((⌊12 * Real.logb 2 (440 * (2 : ℝ) ^ (((12 * o + p : ℤ) : ℝ) / 12) / 440) / 12⌋ * 12 +
        closestNote
          (jsFmod (jsFmod (12 * Real.logb 2 (440 * (2 : ℝ) ^ (((12 * o + p : ℤ) : ℝ) / 12) / 440)) 12 + 12) 12)
          (scales majorType) : ℤ) : ℝ) / 12) = _
  rw [hsem, hfloor, hresid, hcn, hexp]

/-- C6: snapToScale is idempotent on the major scale for every positive
frequency (over exact real arithmetic). -/
theorem C6_snapToScale_idempotent_major (f : ℝ) (hf : 0 < f) :
    snapToScale (snapToScale f majorType) majorType = snapToScale f majorType := by
  obtain ⟨o, p, hp, heq⟩ := snapToScale_major_form f
  rw [heq]
  exact snapToScale_major_fixed o p hp

/-- C6 witness: idempotence at the concrete frequency 440. -/
theorem C6_witness :
    (0 : ℝ) < 440 ∧
    snapToScale (snapToScale 440 majorType) majorType = snapToScale 440 majorType :=
  ⟨by norm_num, C6_snapToScale_idempotent_major 440 (by norm_num)⟩

/-- C1 (the code as it behaves): update() never changes any cell's phase in
the grid observable after it returns.  The source computes the advanced
phase but writes it into the pre-copy grid, which the final grid swap
discards, so the claimed advance by deltaTime * frequency / 20 never
reaches the published grid. -/
theorem C1_update_leaves_every_phase_unchanged (f : WaveField) (dt : ℝ) (j : ℕ) :
    ((update f dt).grid[j]?).map Cell.phase = (f.grid[j]?).map Cell.phase := by
  rw [update_grid_getElem]
  split
  · cases f.grid[j]? <;> rfl
  · rfl

end Vibifly
